import Mathlib

/-!
# Verification of the go-reflector object-introspection library

Shallow embedding of `reflector/reflector.go` (types, field-listing engine,
tag parsing, field get/set, indexed/keyed access, dynamic method calls)
together with proofs about the specified behaviour.

Go's runtime reflection facility (`reflect`) is modelled by an explicit
universe of type descriptors (`GoType`) and values (`GoVal`); reflection
primitives that can panic are modelled as functions into `Except Fault`.
Library functions that use `recover` catch the fault at the boundary,
exactly as the source does; functions without `recover` propagate it.
-/

namespace GoReflector

/-- Coarse type classification mirroring `reflect.Kind`. -/
inductive Kind where
  | invalid
  | kBool
  | kInt
  | kFloat
  | kString
  | kPtr
  | kSlice
  | kArray
  | kMap
  | kInterface
  | kStruct
  deriving DecidableEq, Repr

mutual

/-- A Go type descriptor (`reflect.Type`), restricted to the shapes used by
the library: primitives, pointers, slices, arrays, maps and named structs. -/
inductive GoType : Type where
  | tBool : GoType
  | tInt : GoType
  | tFloat : GoType
  | tString : GoType
  | tError : GoType
  | tPtr : GoType → GoType
  | tSlice : GoType → GoType
  | tArray : Nat → GoType → GoType
  | tMap : GoType → GoType → GoType
  | tStruct : String → FieldList → GoType
  deriving DecidableEq

/-- The declared fields of a struct type, in source order. -/
inductive FieldList : Type where
  | nil : FieldList
  | cons : StructField → FieldList → FieldList
  deriving DecidableEq

/-- One declared struct field (`reflect.StructField`): name, package path
(empty iff the field is exported), raw tag string, anonymous/embedded flag
and declared type. -/
inductive StructField : Type where
  | mk : (name pkgPath tag : String) → (anonymous : Bool) → (fieldType : GoType) → StructField
  deriving DecidableEq

end

def StructField.name : StructField → String
  | .mk n _ _ _ _ => n

def StructField.pkgPath : StructField → String
  | .mk _ p _ _ _ => p

def StructField.tagString : StructField → String
  | .mk _ _ t _ _ => t

def StructField.anonymous : StructField → Bool
  | .mk _ _ _ a _ => a

def StructField.fieldType : StructField → GoType
  | .mk _ _ _ _ ty => ty

/-- `reflect.Type.Kind`. -/
def GoType.kind : GoType → Kind
  | .tBool => .kBool
  | .tInt => .kInt
  | .tFloat => .kFloat
  | .tString => .kString
  | .tError => .kInterface
  | .tPtr _ => .kPtr
  | .tSlice _ => .kSlice
  | .tArray _ _ => .kArray
  | .tMap _ _ => .kMap
  | .tStruct _ _ => .kStruct

/-- The four field-listing policies (`fieldListingType` in the source). -/
inductive FieldListingType where
  | fieldsAll
  | fieldsAnonymous
  | fieldsFlattenAnonymous
  | fieldsNoFlattenAnonymous
  deriving DecidableEq

mutual

/-- Translation of `ObjMetadata.appendFields`: appends the names contributed
by one declared field under the given listing policy.  Note that the source
performs no exported-ness check here. -/
def appendFields (fields : List String) (field : StructField)
    (listingType : FieldListingType) : List String :=
  match field with
  | .mk fieldName _ _ anonymous fieldType =>
    let k := fieldType.kind
    if listingType = .fieldsAnonymous then
      if anonymous then fields ++ [fieldName] else fields
    else if listingType = .fieldsAll then
      let fields' := fields ++ [fieldName]
      if k = .kStruct ∧ anonymous then
        fields' ++ getFields fieldType listingType
      else fields'
    else
      if listingType = .fieldsFlattenAnonymous ∧ k = .kStruct ∧ anonymous then
        fields ++ getFields fieldType listingType
      else
        fields ++ [fieldName]

/-- Translation of `ObjMetadata.getFields`: dereferences one level of
pointer, returns nothing for non-structs, otherwise folds `appendFields`
over the declared fields in order. -/
def getFields (ty : GoType) (listingType : FieldListingType) : List String :=
  match ty with
  | .tPtr (.tStruct _ fs) => getFieldsLoop fs listingType []
  | .tStruct _ fs => getFieldsLoop fs listingType []
  | _ => []

/-- The `for i := 0; i < ty.NumField(); i++` loop of `getFields`. -/
def getFieldsLoop (fs : FieldList) (listingType : FieldListingType)
    (acc : List String) : List String :=
  match fs with
  | .nil => acc
  | .cons f rest => getFieldsLoop rest listingType (appendFields acc f listingType)

end

/-! ## Concrete types from the repository's tests -/

/-- Declared fields of `Address{Street string; Number int}` with its tags. -/
def addressFieldsL : FieldList :=
  .cons (.mk "Street" "" "tag:\"be\" tag2:\"1,2,3\"" false .tString)
    (.cons (.mk "Number" "" "tag:\"bi\"" false .tInt) .nil)

/-- `Address{Street string; Number int}`. -/
def addressTy : GoType := .tStruct "Address" addressFieldsL

/-- Declared fields of `Person{Name string; Address}`. -/
def personFieldsL : FieldList :=
  .cons (.mk "Name" "" "tag:\"bu\"" false .tString)
    (.cons (.mk "Address" "" "" true addressTy) .nil)

/-- `Person{Name string; Address}` with `Address` embedded anonymously. -/
def personTy : GoType := .tStruct "Person" personFieldsL

/-- Declared fields of `Company{Address; Number int}`. -/
def companyFieldsL : FieldList :=
  .cons (.mk "Address" "" "" true addressTy)
    (.cons (.mk "Number" "" "tag:\"bi\"" false .tInt) .nil)

/-- `Company{Address; Number int}`: its own `Number` collides with the
embedded `Address.Number`. -/
def companyTy : GoType := .tStruct "Company" companyFieldsL

/-- Model of `tmp.TestStruct` from the repository's tests: a blank field, an
exported field and an unexported field (the latter two carry non-empty
package paths in `reflect`, marking them non-exported). -/
def tmpTestStructTy : GoType :=
  .tStruct "TestStruct"
    (.cons (.mk "_" "tmp" "bu:\"ba\"" false .tString)
      (.cons (.mk "Exported" "" "" false .tString)
        (.cons (.mk "unexported" "tmp" "bu:\"ba\" hu:\"ha\"" false .tInt) .nil)))

/-! ## Declared-field predicate, used to characterise the listing output -/

mutual

/-- `n` is the name of a declared field of `ty` (after one pointer
dereference) or of a recursively embedded anonymous struct inside it,
irrespective of exported-ness. -/
def hasDeclaredField : GoType → String → Bool
  | .tPtr (.tStruct _ fs), n => hasDeclaredFieldIn fs n
  | .tStruct _ fs, n => hasDeclaredFieldIn fs n
  | _, _ => false

/-- Membership of `n` among a field list's own names or, recursively, the
names declared under its anonymous fields. -/
def hasDeclaredFieldIn : FieldList → String → Bool
  | .nil, _ => false
  | .cons (.mk nm _ _ anon fty) rest, n =>
      nm = n || (anon && hasDeclaredField fty n) || hasDeclaredFieldIn rest n

end

mutual

theorem appendFields_sound (acc : List String) (f : StructField)
    (lt : FieldListingType) (n : String) (h : n ∈ appendFields acc f lt) :
    n ∈ acc ∨ n = f.name ∨ (f.anonymous = true ∧ hasDeclaredField f.fieldType n = true) := by
  match f with
  | .mk nm pk tg anon fty =>
    simp only [appendFields, StructField.name, StructField.anonymous, StructField.fieldType]
    simp only [appendFields] at h
    split at h
    · split at h
      · rcases List.mem_append.mp h with h' | h'
        · exact Or.inl h'
        · exact Or.inr (Or.inl (List.mem_singleton.mp h'))
      · exact Or.inl h
    · split at h
      · split at h
        next hk =>
          rcases List.mem_append.mp h with h' | h'
          · rcases List.mem_append.mp h' with h'' | h''
            · exact Or.inl h''
            · exact Or.inr (Or.inl (List.mem_singleton.mp h''))
          · exact Or.inr (Or.inr ⟨hk.2, getFields_sound fty lt n h'⟩)
        · rcases List.mem_append.mp h with h' | h'
          · exact Or.inl h'
          · exact Or.inr (Or.inl (List.mem_singleton.mp h'))
      · split at h
        next hk =>
          rcases List.mem_append.mp h with h' | h'
          · exact Or.inl h'
          · exact Or.inr (Or.inr ⟨hk.2.2, getFields_sound fty lt n h'⟩)
        · rcases List.mem_append.mp h with h' | h'
          · exact Or.inl h'
          · exact Or.inr (Or.inl (List.mem_singleton.mp h'))

theorem getFields_sound (ty : GoType) (lt : FieldListingType) (n : String)
    (h : n ∈ getFields ty lt) : hasDeclaredField ty n = true := by
  match ty with
  | .tPtr (.tStruct nm fs) =>
    simp only [getFields] at h
    simp only [hasDeclaredField]
    rcases getFieldsLoop_sound fs lt [] n h with h' | h'
    · exact absurd h' (List.not_mem_nil n)
    · exact h'
  | .tStruct nm fs =>
    simp only [getFields] at h
    simp only [hasDeclaredField]
    rcases getFieldsLoop_sound fs lt [] n h with h' | h'
    · exact absurd h' (List.not_mem_nil n)
    · exact h'
  | .tBool | .tInt | .tFloat | .tString | .tError
  | .tPtr .tBool | .tPtr .tInt | .tPtr .tFloat | .tPtr .tString | .tPtr .tError
  | .tPtr (.tPtr _) | .tPtr (.tSlice _) | .tPtr (.tArray _ _) | .tPtr (.tMap _ _)
  | .tSlice _ | .tArray _ _ | .tMap _ _ =>
    simp only [getFields] at h
    exact absurd h (List.not_mem_nil n)

theorem getFieldsLoop_sound (fs : FieldList) (lt : FieldListingType)
    (acc : List String) (n : String) (h : n ∈ getFieldsLoop fs lt acc) :
    n ∈ acc ∨ hasDeclaredFieldIn fs n = true := by
  match fs with
  | .nil =>
    simp only [getFieldsLoop] at h
    exact Or.inl h
  | .cons f rest =>
    simp only [getFieldsLoop] at h
    rcases getFieldsLoop_sound rest lt (appendFields acc f lt) n h with h' | h'
    · rcases appendFields_sound acc f lt n h' with h'' | h'' | h''
      · exact Or.inl h''
      · right
        match f with
        | .mk nm pk tg anon fty =>
          simp only [StructField.name] at h''
          simp only [hasDeclaredFieldIn]
          simp [h'']
      · right
        match f with
        | .mk nm pk tg anon fty =>
          simp only [StructField.anonymous, StructField.fieldType] at h''
          simp only [hasDeclaredFieldIn]
          simp [h''.1, h''.2]
    · right
      match f with
      | .mk nm pk tg anon fty =>
        simp only [hasDeclaredFieldIn]
        simp [h']

end

/-! ## Runtime values (`reflect.Value`) -/

mutual

/-- A Go runtime value.  `vNil` is the untyped nil / zero `reflect.Value`;
`vPtrNil ty` is a typed nil pointer `(*ty)(nil)`; `vError` is a non-nil
value implementing the `error` interface. -/
inductive GoVal : Type where
  | vNil : GoVal
  | vBool : Bool → GoVal
  | vInt : Int → GoVal
  | vString : String → GoVal
  | vError : String → GoVal
  | vPtrNil : GoType → GoVal
  | vPtr : GoType → GoVal → GoVal
  | vSlice : GoType → ValList → GoVal
  | vArray : GoType → Nat → ValList → GoVal
  | vMap : GoType → GoType → EntryList → GoVal
  | vStruct : String → FieldList → BindList → GoVal
  deriving DecidableEq

/-- Elements of a slice or array value, in order. -/
inductive ValList : Type where
  | nil : ValList
  | cons : GoVal → ValList → ValList
  deriving DecidableEq

/-- Key/value entries of a map value. -/
inductive EntryList : Type where
  | nil : EntryList
  | cons : GoVal → GoVal → EntryList → EntryList
  deriving DecidableEq

/-- Field name/value bindings of a struct value, in declaration order. -/
inductive BindList : Type where
  | nil : BindList
  | cons : String → GoVal → BindList → BindList
  deriving DecidableEq

end

/-- `reflect.TypeOf`: the dynamic type of a value, `none` for untyped nil. -/
def GoVal.typeOf : GoVal → Option GoType
  | .vNil => none
  | .vBool _ => some .tBool
  | .vInt _ => some .tInt
  | .vString _ => some .tString
  | .vError _ => some .tError
  | .vPtrNil e => some (.tPtr e)
  | .vPtr e _ => some (.tPtr e)
  | .vSlice e _ => some (.tSlice e)
  | .vArray e n _ => some (.tArray n e)
  | .vMap k v _ => some (.tMap k v)
  | .vStruct n fs _ => some (.tStruct n fs)

/-- `reflect.Indirect(reflect.ValueOf(x))`: dereference one level of
pointer; untyped nil and nil pointers give the zero `reflect.Value`,
modelled as `none`. -/
def indirect : GoVal → Option GoVal
  | .vNil => none
  | .vPtrNil _ => none
  | .vPtr _ p => some p
  | v => some v

def ValList.length : ValList → Nat
  | .nil => 0
  | .cons _ rest => rest.length + 1

def ValList.get? : ValList → Nat → Option GoVal
  | .nil, _ => none
  | .cons v _, 0 => some v
  | .cons _ rest, n + 1 => rest.get? n

def ValList.set : ValList → Nat → GoVal → ValList
  | .nil, _, _ => .nil
  | .cons _ rest, 0, x => .cons x rest
  | .cons v rest, n + 1, x => .cons v (rest.set n x)

def EntryList.length : EntryList → Nat
  | .nil => 0
  | .cons _ _ rest => rest.length + 1

def EntryList.lookup : EntryList → GoVal → Option GoVal
  | .nil, _ => none
  | .cons k v rest, key => if k = key then some v else rest.lookup key

def EntryList.store : EntryList → GoVal → GoVal → EntryList
  | .nil, key, x => .cons key x .nil
  | .cons k v rest, key, x =>
    if k = key then .cons k x rest else .cons k v (rest.store key x)

def bindLookup : BindList → String → Option GoVal
  | .nil, _ => none
  | .cons nm v rest, n => if nm = n then some v else bindLookup rest n

def bindUpdate : BindList → String → GoVal → BindList
  | .nil, _, _ => .nil
  | .cons nm v rest, n, x =>
    if nm = n then .cons nm x rest else .cons nm v (bindUpdate rest n x)

/-! ## Field lookup with promotion (`reflect.FieldByName`)

Go's `FieldByName` finds the named field at the shallowest embedding depth,
searching only through anonymous fields, and fails on ambiguity at that
depth.  We model it by collecting every match together with its depth and
access path. -/

mutual

def fieldSearch : GoType → String → List (Nat × List String × StructField)
  | .tStruct _ fs, n => fieldSearchIn fs n
  | _, _ => []

def fieldSearchIn : FieldList → String → List (Nat × List String × StructField)
  | .nil, _ => []
  | .cons f rest, n => fieldSearchOne f n ++ fieldSearchIn rest n

def fieldSearchOne : StructField → String → List (Nat × List String × StructField)
  | .mk nm pk tg anon fty, n =>
    (if nm = n then [(0, [nm], .mk nm pk tg anon fty)] else [])
      ++ (if anon then
            (fieldSearchEmbedded fty n).map (fun x => (x.1 + 1, nm :: x.2.1, x.2.2))
          else [])

def fieldSearchEmbedded : GoType → String → List (Nat × List String × StructField)
  | .tStruct _ fs, n => fieldSearchIn fs n
  | _, _ => []

end

/-- `reflect.Type.FieldByName`: unique shallowest match, with its path. -/
def fieldByName (ty : GoType) (n : String) : Option (List String × StructField) :=
  let ms := fieldSearch ty n
  match (ms.map (·.1)).min? with
  | none => none
  | some d =>
    match ms.filter (fun x => x.1 = d) with
    | [x] => some x.2
    | _ => none

/-- Walk a promotion path inside a struct value
(`reflect.Value.FieldByName`'s traversal through value-embedded structs). -/
def walkPath : GoVal → List String → Option GoVal
  | v, [] => some v
  | .vStruct _ _ bs, nm :: rest =>
    match bindLookup bs nm with
    | some v' => walkPath v' rest
    | none => none
  | _, _ :: _ => none

/-- Write `x` at the end of a promotion path, rebuilding the enclosing
struct value (functional model of the in-place `reflect.Value.Set`). -/
def writePath : GoVal → List String → GoVal → Option GoVal
  | _, [], x => some x
  | .vStruct sn fs bs, nm :: rest, x =>
    match bindLookup bs nm with
    | some cur =>
      match writePath cur rest x with
      | some cur' => some (.vStruct sn fs (bindUpdate bs nm cur'))
      | none => none
    | none => none
  | _, _ :: _, _ => none

/-- Path of the unique shallowest field named `n` in the value's type. -/
def valuePathByName (v : GoVal) (n : String) : Option (List String) :=
  match v.typeOf with
  | some ty => (fieldByName ty n).map (·.1)
  | none => none

/-- `reflect.Value.FieldByName` on a live value. -/
def valueFieldByName (v : GoVal) (n : String) : Option GoVal :=
  match valuePathByName v n with
  | some p => walkPath v p
  | none => none

/-! ## Methods and the method table

Methods are attached to named struct types through an explicit table
(mirroring Go's per-type method sets: the pointer type sees every method,
the value type only value-receiver methods; `reflect` reports them in
alphabetical order). -/

/-- A resolved method (`reflect.Method`): receiver as the first `Func`
argument, declared input/output types, and its behaviour. -/
structure GoMethod where
  name : String
  ptrReceiver : Bool
  recvType : GoType
  inTypes : List GoType
  outTypes : List GoType
  impl : GoVal → List GoVal → List GoVal

def personImplAdd : GoVal → List GoVal → List GoVal := fun _ args =>
  match args with
  | [.vInt a, .vInt b, .vInt c] => [.vInt (a + b + c)]
  | _ => []

def personImplHi : GoVal → List GoVal → List GoVal := fun recv args =>
  let myName :=
    match valueFieldByName (match recv with | .vPtr _ p => p | v => v) "Name" with
    | some (.vString s) => s
    | _ => ""
  match args with
  | [.vString n] => [.vString ("Hi " ++ n ++ " my name is " ++ myName)]
  | _ => []

def personImplReturnsError : GoVal → List GoVal → List GoVal := fun _ args =>
  match args with
  | [.vBool true] => [.vString "", .vPtrNil .tInt, .vError "error here"]
  | [.vBool false] => [.vString "jen", .vPtr .tInt (.vInt 2), .vNil]
  | _ => []

def personImplSubstract : GoVal → List GoVal → List GoVal := fun _ args =>
  match args with
  | [.vInt a, .vInt b] => [.vInt (a - b)]
  | _ => []

/-- Methods declared on the test type `Person` (see `reflector_test.go`):
`Add`, `Hi`, `ReturnsError` with value receivers, `Substract` with a
pointer receiver.  Listed in Go's alphabetical method order. -/
def declaredMethods : GoType → List GoMethod
  | .tStruct "Person" fs =>
    [ { name := "Add", ptrReceiver := false, recvType := .tStruct "Person" fs,
        inTypes := [.tInt, .tInt, .tInt], outTypes := [.tInt], impl := personImplAdd },
      { name := "Hi", ptrReceiver := false, recvType := .tStruct "Person" fs,
        inTypes := [.tString], outTypes := [.tString], impl := personImplHi },
      { name := "ReturnsError", ptrReceiver := false, recvType := .tStruct "Person" fs,
        inTypes := [.tBool], outTypes := [.tString, .tPtr .tInt, .tError],
        impl := personImplReturnsError },
      { name := "Substract", ptrReceiver := true, recvType := .tStruct "Person" fs,
        inTypes := [.tInt, .tInt], outTypes := [.tInt], impl := personImplSubstract } ]
  | _ => []

/-- The method set of a type: pointer types see all declared methods of the
pointee (receiver rewritten to the pointer type, as `reflect` does for its
`Func`); value types see only value-receiver methods. -/
def methodSet : Option GoType → List GoMethod
  | some (.tPtr e) => (declaredMethods e).map (fun m => { m with recvType := .tPtr e })
  | some t => (declaredMethods t).filter (fun m => !m.ptrReceiver)
  | none => []

/-- `reflect.Type.MethodByName`. -/
def methodByName (ty : Option GoType) (name : String) : Option GoMethod :=
  (methodSet ty).find? (fun m => m.name == name)

/-! ## Cached metadata (`ObjMetadata` and friends) -/

/-- `ObjFieldMetadata`: per type+field-name data. -/
structure ObjFieldMetadata where
  name : String
  structField : Option StructField
  valid : Bool
  fieldKind : Kind
  fieldType : Option GoType
  deriving DecidableEq

/-- Translation of `newObjFieldMetadata`. -/
def newObjFieldMetadata (objType : GoType) (isPtrToStruct isStructOrPtr : Bool)
    (name : String) : ObjFieldMetadata :=
  if isStructOrPtr then
    let sf? :=
      if isPtrToStruct then
        match objType with
        | .tPtr e => fieldByName e name
        | _ => none
      else fieldByName objType name
    match sf? with
    | some (_, sf) =>
      { name := name, structField := some sf, valid := true,
        fieldKind := sf.fieldType.kind, fieldType := some sf.fieldType }
    | none =>
      { name := name, structField := none, valid := false,
        fieldKind := .invalid, fieldType := none }
  else
    { name := name, structField := none, valid := false,
      fieldKind := .invalid, fieldType := none }

/-- `ObjMethodMetadata`: per type+method-name data. -/
structure ObjMethodMetadata where
  name : String
  method : Option GoMethod
  valid : Bool

/-- `ObjMetadata`: everything computed once per type. -/
structure ObjMetadata where
  isStruct : Bool
  isPtrToStruct : Bool
  underlyingType : Option GoType
  objType : Option GoType
  objKind : Kind
  fields : List (String × ObjFieldMetadata)
  fieldNamesAll : List String
  fieldNamesAnonymous : List String
  fieldNamesFlattenAnonymous : List String
  fieldNamesNoFlattenAnonymous : List String
  methods : List (String × ObjMethodMetadata)
  methodNames : List String

/-- Translation of `newObjMetadata`: a nil type descriptor yields the
degenerate invalid metadata; otherwise classify, compute the four listings,
and build per-field and per-method metadata. -/
def newObjMetadata : Option GoType → ObjMetadata
  | none =>
    { isStruct := false, isPtrToStruct := false, underlyingType := none,
      objType := none, objKind := .invalid, fields := [],
      fieldNamesAll := [], fieldNamesAnonymous := [],
      fieldNamesFlattenAnonymous := [], fieldNamesNoFlattenAnonymous := [],
      methods := [], methodNames := [] }
  | some t =>
    let isStruct := decide (t.kind = Kind.kStruct)
    let isPtrToStruct :=
      match t with
      | .tPtr e => decide (e.kind = Kind.kStruct)
      | _ => false
    let underlying :=
      match t with
      | .tPtr e => if e.kind = Kind.kStruct then e else t
      | _ => t
    let allFields := getFields t .fieldsAll
    let ms := methodSet (some t)
    { isStruct := isStruct, isPtrToStruct := isPtrToStruct,
      underlyingType := some underlying, objType := some t, objKind := t.kind,
      fields := allFields.map
        (fun nm => (nm, newObjFieldMetadata t isPtrToStruct (isStruct || isPtrToStruct) nm)),
      fieldNamesAll := allFields,
      fieldNamesAnonymous := getFields t .fieldsAnonymous,
      fieldNamesFlattenAnonymous := getFields t .fieldsFlattenAnonymous,
      fieldNamesNoFlattenAnonymous := getFields t .fieldsNoFlattenAnonymous,
      methods := ms.map (fun m => (m.name, { name := m.name, method := some m, valid := true })),
      methodNames := ms.map (·.name) }

/-! ## The object wrapper (`Obj`) -/

/-- `Obj`: the wrapped value, the derived `fieldsValue` handle and the
type's metadata. -/
structure Obj where
  iface : GoVal
  fieldsValue : Option GoVal
  objMeta : ObjMetadata

/-- Translation of `New` (metadata caching elided: the cache stores exactly
`newObjMetadata` of the type, so a warm lookup returns the same value). -/
def NewObj (v : GoVal) : Obj :=
  { iface := v, objMeta := newObjMetadata v.typeOf, fieldsValue := indirect v }

def Obj.IsValid (o : Obj) : Bool := decide (o.objMeta.objKind ≠ Kind.invalid)

def Obj.IsStructOrPtrToStruct (o : Obj) : Bool :=
  o.objMeta.isStruct || o.objMeta.isPtrToStruct

/-- Whether `fieldsValue` is addressable: true exactly when the wrapped
value was a (non-nil) pointer, so that `reflect.Indirect` produced an
addressable element. -/
def Obj.valueAddressable (o : Obj) : Bool :=
  match o.iface with
  | .vPtr _ _ => true
  | _ => false

/-! ## Field accessors (`ObjField`) -/

/-- `ObjField`: a per (object, field-name) view.  `value` is the resolved
`reflect.Value` of the field (`none` models the zero `reflect.Value`);
`parent`/`path` record where that value lives inside `fieldsValue`, which
stands in for the aliasing that `reflect` provides natively. -/
structure ObjField where
  value : Option GoVal
  addressable : Bool
  parent : Option GoVal
  path : List String
  md : ObjFieldMetadata
  deriving DecidableEq

/-- Translation of `newObjField`. -/
def newObjField (o : Obj) (md : ObjFieldMetadata) : ObjField :=
  if md.valid && o.IsStructOrPtrToStruct then
    match o.fieldsValue with
    | some fv =>
      { value := valueFieldByName fv md.name, addressable := o.valueAddressable,
        parent := some fv, path := (valuePathByName fv md.name).getD [], md := md }
    | none => { value := none, addressable := false, parent := none, path := [], md := md }
  else { value := none, addressable := false, parent := none, path := [], md := md }

/-- Translation of `Obj.Field`: cached metadata when the fields value is
valid and the name is known, otherwise an invalid placeholder view. -/
def Obj.Field (o : Obj) (fieldName : String) : ObjField :=
  match o.fieldsValue with
  | some _ =>
    match o.objMeta.fields.lookup fieldName with
    | some md => newObjField o md
    | none =>
      newObjField o { name := fieldName, structField := none, valid := false,
                      fieldKind := .invalid, fieldType := none }
  | none =>
    newObjField o { name := fieldName, structField := none, valid := false,
                    fieldKind := .invalid, fieldType := none }

def ObjField.Name (f : ObjField) : String := f.md.name

/-- `ObjField.IsValid`: metadata validity and a valid resolved value. -/
def ObjField.IsValid (f : ObjField) : Bool := f.md.valid && f.value.isSome

/-- `ObjField.IsExported`: the package path of the (possibly zero)
`StructField` is empty. -/
def ObjField.IsExported (f : ObjField) : Bool :=
  match f.md.structField with
  | some sf => decide (sf.pkgPath = "")
  | none => true

/-- `ObjField.Get`. -/
def ObjField.Get (f : ObjField) : Except String GoVal :=
  if f.IsValid then
    if f.IsExported then
      match f.value with
      | some v => .ok v
      | none => .error ("invalid field " ++ f.md.name)
    else .error ("cannot read unexported field " ++ f.md.name)
  else .error ("invalid field " ++ f.md.name)

/-- `ObjField.IsSettable` (`reflect.Value.CanSet`): valid, addressable and
exported. -/
def ObjField.IsSettable (f : ObjField) : Bool :=
  f.value.isSome && f.addressable && f.IsExported

/-- A runtime panic of the underlying reflection facility. -/
structure Fault where
  msg : String
  deriving DecidableEq

instance {a b : Type} [DecidableEq a] [DecidableEq b] : DecidableEq (Except a b) := fun x y =>
  match x, y with
  | .error u, .error v =>
    if h : u = v then .isTrue (by rw [h]) else .isFalse (by simp [h])
  | .error _, .ok _ => .isFalse (by simp)
  | .ok _, .error _ => .isFalse (by simp)
  | .ok u, .ok v =>
    if h : u = v then .isTrue (by rw [h]) else .isFalse (by simp [h])

/-- Go assignability as used by `reflect.Value.Set`/`Call`: matching
dynamic type, or an untyped nil for nil-able kinds. -/
def assignableTo (v : GoVal) (ty : GoType) : Bool :=
  match v.typeOf with
  | some t => t == ty
  | none =>
    match ty.kind with
    | .kPtr | .kMap | .kSlice | .kInterface => true
    | _ => false

/-- Translation of `ObjField.Set`.  The two guarded failures are returned
as errors; the final `of.value.Set(reflect.ValueOf(value))` is a raw
reflection call that panics (uncaught — there is no `recover` in `Set`)
on a non-assignable value.  On success the updated `fieldsValue` is
returned (the source writes through the aliased `reflect.Value`). -/
def ObjField.Set (f : ObjField) (value : GoVal) : Except Fault (Except String GoVal) :=
  if f.IsValid then
    if f.IsSettable then
      match f.md.fieldType with
      | some ft =>
        if assignableTo value ft then
          match f.parent with
          | some pv =>
            match writePath pv f.path value with
            | some pv' => .ok (.ok pv')
            | none => .error { msg := "reflect: Value.Set on unresolved field path" }
          | none => .error { msg := "reflect: Value.Set using zero Value" }
        else .error { msg := "reflect.Set: value not assignable to type" }
      | none => .error { msg := "reflect: Value.Set using zero Value" }
    else .ok (.error ("field " ++ f.md.name ++ " not settable"))
  else .ok (.error ("invalid field " ++ f.md.name))

/-! ## Field listings on the wrapper -/

/-- Translation of `Obj.getFields` (the listing-to-`ObjField` zipper). -/
def Obj.getObjFields (o : Obj) (listingType : FieldListingType) : List ObjField :=
  let fieldNames :=
    match listingType with
    | .fieldsAll => o.objMeta.fieldNamesAll
    | .fieldsAnonymous => o.objMeta.fieldNamesAnonymous
    | .fieldsFlattenAnonymous => o.objMeta.fieldNamesFlattenAnonymous
    | .fieldsNoFlattenAnonymous => o.objMeta.fieldNamesNoFlattenAnonymous
  fieldNames.map (fun n => o.Field n)

/-- `Obj.Fields`: anonymous fields listed as themselves, not expanded. -/
def Obj.Fields (o : Obj) : List ObjField := o.getObjFields .fieldsNoFlattenAnonymous

/-- `Obj.FieldsFlattened`: anonymous struct fields replaced by their own
fields. -/
def Obj.FieldsFlattened (o : Obj) : List ObjField := o.getObjFields .fieldsFlattenAnonymous

/-- `Obj.FieldsAll`: anonymous fields and, recursively, their fields. -/
def Obj.FieldsAll (o : Obj) : List ObjField := o.getObjFields .fieldsAll

/-- `Obj.FieldsAnonymous`: only the anonymous fields themselves. -/
def Obj.FieldsAnonymous (o : Obj) : List ObjField := o.getObjFields .fieldsAnonymous

/-- Association-list model of the Go `map[string]int` counter used by
`FindDoubleFields`: lookup (zero default). -/
def countsLookup : List (String × Nat) → String → Nat
  | [], _ => 0
  | (k, c) :: rest, n => if k = n then c else countsLookup rest n

/-- Association-list model of the counter map: store. -/
def countsStore : List (String × Nat) → String → Nat → List (String × Nat)
  | [], n, c => [(n, c)]
  | (k, c0) :: rest, n, c =>
    if k = n then (k, c) :: rest else (k, c0) :: countsStore rest n c

/-- The loop body of `Obj.FindDoubleFields`: a name is appended exactly
when it is seen for the second time. -/
def findDoubleLoop : List String → List (String × Nat) → List String → List String
  | [], _, res => res
  | f :: rest, counts, res =>
    let counter := countsLookup counts f
    let res' := if counter = 1 then res ++ [f] else res
    findDoubleLoop rest (countsStore counts f (counter + 1)) res'

/-- Translation of `Obj.FindDoubleFields`. -/
def Obj.FindDoubleFields (o : Obj) : List String :=
  findDoubleLoop (o.FieldsAll.map ObjField.Name) [] []

/-! ## Method invocation (`ObjMethod`, `CallResult`) -/

/-- `ObjMethod`: a per (object, method-name) view. -/
structure ObjMethod where
  obj : Obj
  md : ObjMethodMetadata

/-- Translation of `Obj.Method`. -/
def Obj.Method (o : Obj) (name : String) : ObjMethod :=
  match o.objMeta.methods.lookup name with
  | some md => { obj := o, md := md }
  | none => { obj := o, md := { name := name, method := none, valid := false } }

/-- Translation of `Obj.Methods`. -/
def Obj.Methods (o : Obj) : List ObjMethod :=
  o.objMeta.methodNames.map (fun n => o.Method n)

def ObjMethod.IsValid (om : ObjMethod) : Bool := om.md.valid

/-- `CallResult`: the returned values and the detected trailing error. -/
structure CallResult where
  Result : List GoVal
  Error : Option String
  deriving DecidableEq

/-- Translation of `newCallResult`: if the last returned value is non-nil
and type-asserts to `error`, it is extracted into the `Error` slot; the
result sequence is stored as-is in every case. -/
def newCallResult (res : List GoVal) : CallResult :=
  match res.getLast? with
  | none => { Result := res, Error := none }
  | some errorCandidate =>
    if errorCandidate = .vNil then { Result := res, Error := none }
    else
      match errorCandidate with
      | .vError msg => { Result := res, Error := some msg }
      | _ => { Result := res, Error := none }

/-- `CallResult.IsError`. -/
def CallResult.IsError (cr : CallResult) : Bool := cr.Error.isSome

/-- `reflect.Value.Call` on a method `Func`: panics (a `Fault`) on a wrong
argument count or non-assignable argument types, otherwise runs the method.
The first argument is the receiver. -/
def funcCall (m : GoMethod) (inVals : List GoVal) : Except Fault (List GoVal) :=
  let expected := m.recvType :: m.inTypes
  if inVals.length ≠ expected.length then
    .error { msg := "reflect: Call with wrong number of arguments" }
  else if ¬ ((inVals.zip expected).all fun p => assignableTo p.1 p.2) then
    .error { msg := "reflect: Call using wrong argument type" }
  else
    match inVals with
    | recv :: args => .ok (m.impl recv args)
    | [] => .error { msg := "reflect: Call with wrong number of arguments" }

/-- Translation of `ObjMethod.Call`: the two resolution checks return
explicit errors; the raw `om.method.Func.Call(in)` is *not* wrapped in a
`recover`, so its faults propagate out of the library. -/
def ObjMethod.Call (om : ObjMethod) (args : List GoVal) :
    Except Fault (Except String CallResult) :=
  if ¬ om.obj.IsValid then
    .ok (.error ("invalid object type for method " ++ om.md.name))
  else if ¬ om.IsValid then
    .ok (.error ("invalid method " ++ om.md.name))
  else
    match om.md.method with
    | none => .ok (.error ("invalid method " ++ om.md.name))
    | some m =>
      match funcCall m (om.obj.iface :: args) with
      | .error f => .error f
      | .ok out => .ok (.ok (newCallResult out))

/-! ## Length and indexed/keyed access -/

/-- Kind of the `fieldsValue` handle (`o.fieldsValue.Kind()`); the zero
`reflect.Value` has kind `invalid`. -/
def Obj.fieldsValueKind (o : Obj) : Kind :=
  match o.fieldsValue with
  | some v =>
    match v.typeOf with
    | some t => t.kind
    | none => .invalid
  | none => .invalid

/-- Translation of `Obj.Len`: length for arrays, maps, slices and strings
(channels are outside the model), 0 for every other kind. -/
def Obj.Len (o : Obj) : Int :=
  match o.fieldsValue with
  | some (.vSlice _ l) => l.length
  | some (.vArray _ _ l) => l.length
  | some (.vMap _ _ es) => es.length
  | some (.vString s) => s.length
  | _ => 0

/-- Translation of `Obj.IsGettableByIndex`. -/
def Obj.IsGettableByIndex (o : Obj) : Bool :=
  match o.fieldsValueKind with
  | .kArray | .kSlice | .kString => true
  | _ => false

/-- Translation of `Obj.IsSettableByIndex`. -/
def Obj.IsSettableByIndex (o : Obj) : Bool :=
  match o.fieldsValueKind with
  | .kArray | .kSlice => true
  | _ => false

/-- Translation of `Obj.IsMap`. -/
def Obj.IsMap (o : Obj) : Bool :=
  match o.fieldsValueKind with
  | .kMap => true
  | _ => false

/-- `reflect.Value.Index(i).Interface()`: element of a slice/array, byte of
a string (modelled as the character's code point for ASCII data); panics on
other kinds or out-of-range indices. -/
def reflectIndex (v : GoVal) (index : Int) : Except Fault GoVal :=
  match v with
  | .vSlice _ l =>
    if 0 ≤ index ∧ index < (l.length : Int) then
      match l.get? index.toNat with
      | some x => .ok x
      | none => .error { msg := "reflect: array index out of range" }
    else .error { msg := "reflect: array index out of range" }
  | .vArray _ _ l =>
    if 0 ≤ index ∧ index < (l.length : Int) then
      match l.get? index.toNat with
      | some x => .ok x
      | none => .error { msg := "reflect: array index out of range" }
    else .error { msg := "reflect: array index out of range" }
  | .vString s =>
    if 0 ≤ index ∧ index < (s.length : Int) then
      match s.toList.get? index.toNat with
      | some c => .ok (.vInt c.toNat)
      | none => .error { msg := "reflect: string index out of range" }
    else .error { msg := "reflect: string index out of range" }
  | _ => .error { msg := "reflect: call of reflect.Value.Index on invalid kind" }

/-- The body of `Obj.GetByIndex` before the deferred `recover`. -/
def Obj.GetByIndexBody (o : Obj) (index : Int) : Except Fault (Option GoVal × Bool) :=
  if o.IsGettableByIndex then
    if 0 ≤ index ∧ index < o.Len then
      match o.fieldsValue with
      | some fv =>
        match reflectIndex fv index with
        | .ok v => .ok (some v, true)
        | .error f => .error f
      | none => .ok (none, false)
    else .ok (none, false)
  else .ok (none, false)

/-- Translation of `Obj.GetByIndex`: the deferred `recover` converts any
fault into `(nil, false)`. -/
def Obj.GetByIndex (o : Obj) (index : Int) : Option GoVal × Bool :=
  match o.GetByIndexBody index with
  | .error _ => (none, false)
  | .ok r => r

/-- `reflect.Value.Index(i).Set(x)` as used by `SetByIndex`: slice elements
are settable through any slice value; array elements only through an
addressable array; panics on a non-assignable value. -/
def reflectIndexSet (addressable : Bool) (v : GoVal) (index : Int) (x : GoVal) :
    Except Fault GoVal :=
  match v with
  | .vSlice et l =>
    if 0 ≤ index ∧ index < (l.length : Int) then
      if assignableTo x et then .ok (.vSlice et (l.set index.toNat x))
      else .error { msg := "reflect.Set: value not assignable to type" }
    else .error { msg := "reflect: array index out of range" }
  | .vArray et n l =>
    if ¬ addressable then
      .error { msg := "reflect: reflect.Value.Set using unaddressable value" }
    else if 0 ≤ index ∧ index < (l.length : Int) then
      if assignableTo x et then .ok (.vArray et n (l.set index.toNat x))
      else .error { msg := "reflect.Set: value not assignable to type" }
    else .error { msg := "reflect: array index out of range" }
  | _ => .error { msg := "reflect: call of reflect.Value.Index on invalid kind" }

/-- Translation of `Obj.SetByIndex`: explicit bounds/kind checks return
errors, but there is *no* `recover` here — a fault from the element `Set`
(wrong value type, unaddressable array) propagates out.  On success the
updated `fieldsValue` is returned. -/
def Obj.SetByIndex (o : Obj) (index : Int) (val : GoVal) :
    Except Fault (Except String GoVal) :=
  if index < 0 ∨ o.Len ≤ index then
    .ok (.error ("cannot set element " ++ toString index))
  else if o.IsSettableByIndex then
    match o.fieldsValue with
    | some fv =>
      match reflectIndexSet o.valueAddressable fv index val with
      | .ok fv' => .ok (.ok fv')
      | .error f => .error f
    | none => .ok (.error ("cannot set element " ++ toString index))
  else .ok (.error ("cannot set element " ++ toString index))

/-- `reflect.Value.MapIndex`: panics on a non-map receiver or a key whose
type does not match the map's key type; an absent key yields the zero
`reflect.Value` (`none`). -/
def reflectMapIndex (m key : GoVal) : Except Fault (Option GoVal) :=
  match m with
  | .vMap kt _ es =>
    match key.typeOf with
    | some t =>
      if t = kt then .ok (es.lookup key)
      else .error { msg := "reflect: Value.MapIndex using key of wrong type" }
    | none => .error { msg := "reflect: Value.MapIndex using zero Value as key" }
  | _ => .error { msg := "reflect: call of reflect.Value.MapIndex on invalid kind" }

/-- The body of `Obj.GetByKey` before the deferred `recover`. -/
def Obj.GetByKeyBody (o : Obj) (key : GoVal) : Except Fault (Option GoVal × Bool) :=
  if o.IsMap then
    match o.fieldsValue with
    | some fv =>
      match reflectMapIndex fv key with
      | .ok (some v) => .ok (some v, true)
      | .ok none => .ok (none, false)
      | .error f => .error f
    | none => .ok (none, false)
  else .ok (none, false)

/-- Translation of `Obj.GetByKey`: the deferred `recover` converts any
fault into `(nil, false)`. -/
def Obj.GetByKey (o : Obj) (key : GoVal) : Option GoVal × Bool :=
  match o.GetByKeyBody key with
  | .error _ => (none, false)
  | .ok r => r

/-- `reflect.Value.SetMapIndex`: panics on a non-map receiver or a key or
value of the wrong type; otherwise stores the entry. -/
def reflectSetMapIndex (m key x : GoVal) : Except Fault GoVal :=
  match m with
  | .vMap kt vt es =>
    match key.typeOf with
    | some t =>
      if t = kt then
        if assignableTo x vt then .ok (.vMap kt vt (es.store key x))
        else .error { msg := "reflect: Value.SetMapIndex using value of wrong type" }
      else .error { msg := "reflect: Value.SetMapIndex using key of wrong type" }
    | none => .error { msg := "reflect: Value.SetMapIndex using zero Value as key" }
  | _ => .error { msg := "reflect: call of reflect.Value.SetMapIndex on invalid kind" }

/-- The body of `Obj.SetByKey` before the deferred `recover`.  For a
non-map receiver the source wraps a (nil) error and returns it. -/
def Obj.SetByKeyBody (o : Obj) (key val : GoVal) : Except Fault (Except String GoVal) :=
  if o.IsMap then
    match o.fieldsValue with
    | some fv =>
      match reflectSetMapIndex fv key val with
      | .ok fv' => .ok (.ok fv')
      | .error f => .error f
    | none => .ok (.error "cannot set key")
  else .ok (.error "cannot set key")

/-- Translation of `Obj.SetByKey`: the deferred `recover` converts any
fault into a returned error.  On success the updated map is returned. -/
def Obj.SetByKey (o : Obj) (key val : GoVal) : Except String GoVal :=
  match o.SetByKeyBody key val with
  | .error f => .error ("cannot set key: " ++ f.msg)
  | .ok r => r

/-! ## Tag parsing (the loop of `ObjField.Tags`, i.e. `ParseTag`)

Strings are processed as their character lists; the source works on bytes,
which coincides for the ASCII tag strings the grammar allows. -/

/-- The key-scanning predicate of the parse loop:
`tag[i] > ' ' && tag[i] != ':' && tag[i] != '"' && tag[i] != 0x7f`. -/
def tagKeyChar (c : Char) : Bool :=
  decide (32 < c.toNat) && !(c = ':') && !(c = '"') && !(c.toNat = 127)

/-- The quoted-value scan of the parse loop (`i := 1; for tag[i] != '"'
{ if tag[i] == '\\' { i++ }; i++ }`), applied to the characters after the
opening quote: returns the raw quoted segment and the remainder after the
closing quote, or `none` when the closing quote is missing. -/
def scanQuoted : List Char → Option (List Char × List Char)
  | [] => none
  | '"' :: rest => some ([], rest)
  | '\\' :: [] => none
  | '\\' :: c :: rest =>
    match scanQuoted rest with
    | some (q, r) => some ('\\' :: c :: q, r)
    | none => none
  | c :: rest =>
    match scanQuoted rest with
    | some (q, r) => some (c :: q, r)
    | none => none

/-- Modelled from the runtime facility `strconv.Unquote` applied to the
segment between the quotes: resolve backslash escapes, failing on a
malformed escape. -/
def unescapeChars : List Char → Option (List Char)
  | [] => some []
  | '\\' :: [] => none
  | '\\' :: c :: rest =>
    match (match c with
           | '\\' => some '\\'
           | '"' => some '"'
           | 'n' => some '\n'
           | 't' => some '\t'
           | _ => none) with
    | some c' =>
      match unescapeChars rest with
      | some q => some (c' :: q)
      | none => none
    | none => none
  | c :: rest =>
    match unescapeChars rest with
    | some q => some (c :: q)
    | none => none

/-- Go-map-style insertion for the parsed tag mapping. -/
def storePair : List (String × String) → String → String → List (String × String)
  | [], k, v => [(k, v)]
  | (k0, v0) :: rest, k, v =>
    if k0 = k then (k0, v) :: rest else (k0, v0) :: storePair rest k v

/-- Translation of the `for tag != ""` loop of `ObjField.Tags` (the code
copied from `reflect/type.go`).  `none` models the unquote error return;
malformed fragments `break` with the mapping collected so far.  The fuel
strictly exceeds the possible number of iterations (each iteration consumes
at least one character). -/
def parseTagLoop : Nat → List Char → List (String × String) →
    Option (List (String × String))
  | 0, _, res => some res
  | fuel + 1, tag, res =>
    let tag1 := tag.dropWhile (· = ' ')
    if tag1 = [] then some res
    else
      let key := tag1.takeWhile tagKeyChar
      match tag1.drop key.length with
      | ':' :: '"' :: afterQuote =>
        if key.length = 0 then some res
        else
          match scanQuoted afterQuote with
          | some (inner, remainder) =>
            match unescapeChars inner with
            | some valChars =>
              parseTagLoop fuel remainder
                (storePair res (String.mk key) (String.mk valChars))
            | none => none
          | none => some res
      | _ => some res

/-- `ParseTag`, the tag parser: key/value mapping, or an error when a
quoted value cannot be unquoted. -/
def ParseTag (tag : String) : Except String (List (String × String)) :=
  match parseTagLoop (tag.length + 1) tag.toList [] with
  | some res => .ok res
  | none => .error "cannot unquote tag"

/-- Modelled from the runtime facility `reflect.StructTag.Get`: the value
recorded for `key`, or the empty string when absent/malformed. -/
def tagGet (tag key : String) : String :=
  match parseTagLoop (tag.length + 1) tag.toList [] with
  | some res => (res.lookup key).getD ""
  | none => ""

/-- Translation of `ObjField.Tag`. -/
def ObjField.Tag (f : ObjField) (tag : String) : Except String String :=
  if f.IsValid then
    match f.md.structField with
    | some sf => .ok (tagGet sf.tagString tag)
    | none => .ok ""
  else .error ("invalid field " ++ f.md.name)

/-- Translation of `ObjField.Tags`. -/
def ObjField.Tags (f : ObjField) : Except String (List (String × String)) :=
  if f.IsValid then
    match f.md.structField with
    | some sf => ParseTag sf.tagString
    | none => ParseTag ""
  else .error ("invalid field " ++ f.md.name)

/-- Modelled from the runtime facility `strings.Split` with a single-char
separator: the chunks between separators (the empty string yields one empty
chunk). -/
def splitChars (sep : Char) : List Char → List Char → List String
  | [], acc => [String.mk acc]
  | c :: rest, acc =>
    if c = sep then String.mk acc :: splitChars sep rest []
    else splitChars sep rest (acc ++ [c])

/-- `strings.Split(s, ",")`. -/
def stringsSplitComma (s : String) : List String := splitChars ',' s.toList []

/-- Translation of `ObjField.TagExpanded`: the tag value split on commas
(`strings.Split`, which yields `[""]` for the empty string). -/
def ObjField.TagExpanded (f : ObjField) (tag : String) : Except String (List String) :=
  if f.IsValid then
    match f.md.structField with
    | some sf => .ok (stringsSplitComma (tagGet sf.tagString tag))
    | none => .ok (stringsSplitComma "")
  else .error ("invalid field " ++ f.md.name)

/-! ## Concrete values for the test scenarios -/

/-- A live `Address` value. -/
def addressVal (street : String) (number : Int) : GoVal :=
  .vStruct "Address" addressFieldsL
    (.cons "Street" (.vString street) (.cons "Number" (.vInt number) .nil))

/-- A live `Person` value. -/
def personVal (name street : String) (number : Int) : GoVal :=
  .vStruct "Person" personFieldsL
    (.cons "Name" (.vString name) (.cons "Address" (addressVal street number) .nil))

/-- A live `Company` value. -/
def companyVal (street : String) (addrNumber number : Int) : GoVal :=
  .vStruct "Company" companyFieldsL
    (.cons "Address" (addressVal street addrNumber) (.cons "Number" (.vInt number) .nil))

/-- A `*Person` value wrapping a live pointee. -/
def personPtrVal (name street : String) (number : Int) : GoVal :=
  .vPtr personTy (personVal name street number)

/-- The declared fields of a struct (or pointer-to-struct) type. -/
def GoType.structFieldsOf : GoType → FieldList
  | .tStruct _ fs => fs
  | .tPtr (.tStruct _ fs) => fs
  | _ => .nil

/-- Direct (non-promoted) field lookup in a field list. -/
def FieldList.findByName : FieldList → String → Option StructField
  | .nil, _ => none
  | .cons f rest, n => if f.name = n then some f else rest.findByName n

/-! ## Claim C1 -/

/-- C1, counterexample.  The claim states that every name emitted in any of
the four listings is the name of an exported declared field.  The field
enumeration (`appendFields`/`getFields`) performs no exported-ness check:
for the test struct `tmp.TestStruct` the non-flattened listing emits
`"unexported"`, whose declared field has a non-empty package path (it is
non-exported) — the repository's own test `TestExportedUnexported` asserts
exactly this behaviour. -/
theorem c1_unexported_name_emitted :
    ¬ (∀ n ∈ getFields tmpTestStructTy .fieldsNoFlattenAnonymous,
        ∃ sf, tmpTestStructTy.structFieldsOf.findByName n = some sf ∧ sf.pkgPath = "") := by
  decide

/-- C1, amended.  Every name emitted in any of the four listings is the
name of a declared field — exported or not — of the underlying struct or of
a recursively embedded anonymous struct; the enumeration does not skip
non-exported fields. -/
theorem c1_listed_names_are_declared (ty : GoType) (lt : FieldListingType)
    (n : String) (h : n ∈ getFields ty lt) : hasDeclaredField ty n = true :=
  getFields_sound ty lt n h

/-- Witness for C1 (amended) at `Person` / `"Street"`. -/
theorem c1_listed_names_are_declared_witness :
    "Street" ∈ getFields personTy .fieldsFlattenAnonymous ∧
      hasDeclaredField personTy "Street" = true :=
  ⟨by decide, c1_listed_names_are_declared personTy .fieldsFlattenAnonymous "Street" (by decide)⟩

/-! ## Claim C4 -/

/-- C4.  For `Person{Name; Address}` with `Address{Street, Number}`
embedded anonymously: `Fields()` yields `["Name","Address"]`,
`FieldsFlattened()` yields `["Name","Street","Number"]` and `FieldsAll()`
yields `["Name","Address","Street","Number"]`, in those orders. -/
theorem c4_person_listings :
    ((NewObj (personVal "" "" 0)).Fields.map ObjField.Name) = ["Name", "Address"] ∧
    ((NewObj (personVal "" "" 0)).FieldsFlattened.map ObjField.Name)
      = ["Name", "Street", "Number"] ∧
    ((NewObj (personVal "" "" 0)).FieldsAll.map ObjField.Name)
      = ["Name", "Address", "Street", "Number"] := by
  refine ⟨by decide, by decide, by decide⟩

/-! ## Claim C8 -/

/-- C8.  Parsing `` tag:"be" tag2:"1,2,3" `` yields exactly
`{tag ↦ "be", tag2 ↦ "1,2,3"}`; on the (valid) `Street` field,
`TagExpanded("tag2")` yields `["1","2","3"]` and `TagExpanded` of an absent
key yields `[""]` (comma-split semantics) — with no error in any case. -/
theorem c8_tag_parsing :
    ParseTag "tag:\"be\" tag2:\"1,2,3\"" = .ok [("tag", "be"), ("tag2", "1,2,3")] ∧
    ((NewObj (personPtrVal "" "" 0)).Field "Street").TagExpanded "tag2"
      = .ok ["1", "2", "3"] ∧
    ((NewObj (personPtrVal "" "" 0)).Field "Street").TagExpanded "missing"
      = .ok [""] := by
  refine ⟨by decide, by decide, by decide⟩

/-! ## Claim C9 -/

/-- If the object's fields value is the zero `reflect.Value`, every field
view is invalid and `Get` fails with a resolution error. -/
theorem fieldsValue_none_get_fails (o : Obj) (x : String)
    (h : o.fieldsValue = none) :
    (o.Field x).Get = .error ("invalid field " ++ x) := by
  unfold Obj.Field
  rw [h]
  unfold newObjField
  simp [ObjField.Get, ObjField.IsValid]

/-- C9, counterexample.  The claim states that wrapping a nil pointer with
a known element type yields empty `Fields()` and `Methods()`.  For
`(*Person)(nil)` the listings are *not* empty: `Fields()` has the two
entries `Name` and `Address` and `Methods()` has four entries — exactly
what the repository's test `TestNilStructPtr` asserts. -/
theorem c9_nil_struct_ptr_lists_fields :
    ((NewObj (GoVal.vPtrNil personTy)).Fields.map ObjField.Name) = ["Name", "Address"] ∧
    ((NewObj (GoVal.vPtrNil personTy)).Methods).length = 4 ∧
    ¬ ((NewObj (GoVal.vPtrNil personTy)).Fields = []) := by
  refine ⟨by decide, by decide, by decide⟩

/-- C9, amended.  Wrapping untyped nil yields empty `Fields()` and
`Methods()` and `Field(x).Get()` fails with a resolution error for every
name; wrapping a nil pointer with a known struct element type does not
crash either — `Field(x).Get()` still fails with a resolution error for
every name — but its `Fields()` reports the element type's field metadata
(for `*Person`: `Name`, `Address`) rather than an empty sequence. -/
theorem c9_nil_wrappers_safe :
    (NewObj GoVal.vNil).Fields = [] ∧
    ((NewObj GoVal.vNil).Methods).length = 0 ∧
    (∀ x, ((NewObj GoVal.vNil).Field x).Get = .error ("invalid field " ++ x)) ∧
    (∀ x, ((NewObj (GoVal.vPtrNil personTy)).Field x).Get = .error ("invalid field " ++ x)) ∧
    ((NewObj (GoVal.vPtrNil personTy)).Fields.map ObjField.Name) = ["Name", "Address"] := by
  refine ⟨by decide, by decide, ?_, ?_, by decide⟩
  · intro x
    exact fieldsValue_none_get_fails _ x rfl
  · intro x
    exact fieldsValue_none_get_fails _ x rfl

/-! ## Claim C10 -/

/-- C10.  Error detection in `CallResult` inspects only the final position
of the result sequence: when some non-final position holds a non-nil error
value but the final value is not a non-nil error, `Error` stays `none` and
`IsError()` is false. -/
theorem c10_only_last_position_checked (res : List GoVal) (i : Nat) (msg : String)
    (_hmid : res.get? i = some (.vError msg)) (_hiLt : i + 1 < res.length)
    (hlast : match res.getLast? with
             | some (.vError _) => False
             | _ => True) :
    (newCallResult res).Error = none ∧ (newCallResult res).IsError = false := by
  unfold newCallResult
  match hl : res.getLast? with
  | none => simp [CallResult.IsError]
  | some cand =>
    rw [hl] at hlast
    match cand with
    | .vError m => exact absurd hlast (by simp)
    | .vNil => simp [CallResult.IsError]
    | .vBool b => simp [CallResult.IsError]
    | .vInt n => simp [CallResult.IsError]
    | .vString s => simp [CallResult.IsError]
    | .vPtrNil t => simp [CallResult.IsError]
    | .vPtr t p => simp [CallResult.IsError]
    | .vSlice t l => simp [CallResult.IsError]
    | .vArray t n l => simp [CallResult.IsError]
    | .vMap kt vt es => simp [CallResult.IsError]
    | .vStruct sn fs bs => simp [CallResult.IsError]

/-- Witness for C10: `[error, nil]` — an error in first position is
ignored because the final value is nil. -/
theorem c10_only_last_position_checked_witness :
    (newCallResult [.vError "boom", .vNil]).Error = none ∧
      (newCallResult [.vError "boom", .vNil]).IsError = false :=
  c10_only_last_position_checked [.vError "boom", .vNil] 0 "boom"
    (by decide) (by decide) (by exact trivial)

/-! ## Claims C2 and C7: dynamic calls -/

/-- `newCallResult` stores the result sequence unmodified. -/
theorem newCallResult_result (res : List GoVal) : (newCallResult res).Result = res := by
  unfold newCallResult
  split
  · rfl
  · split
    · rfl
    · split <;> rfl

/-- When the last returned value is a non-nil error, it is extracted. -/
theorem newCallResult_error_last (res : List GoVal) (msg : String)
    (h : res.getLast? = some (.vError msg)) :
    (newCallResult res).Error = some msg := by
  unfold newCallResult
  rw [h]
  simp

/-- When the last returned value is nil, no error is extracted. -/
theorem newCallResult_nil_last (res : List GoVal)
    (h : res.getLast? = some .vNil) :
    (newCallResult res).Error = none := by
  unfold newCallResult
  rw [h]
  simp

/-- A fully resolved, type-correct call returns the method's results in a
`CallResult` with no library-level error — whatever the results contain. -/
theorem call_resolved_ok (om : ObjMethod) (args : List GoVal) (m : GoMethod)
    (hobj : om.obj.IsValid = true) (hval : om.IsValid = true)
    (hm : om.md.method = some m)
    (hlen : args.length = m.inTypes.length)
    (htypes : ((om.obj.iface :: args).zip (m.recvType :: m.inTypes)).all
        (fun p => assignableTo p.1 p.2) = true) :
    om.Call args = .ok (.ok (newCallResult (m.impl om.obj.iface args))) := by
  unfold ObjMethod.Call
  rw [hobj, hval, hm]
  simp only [not_true, if_neg, ite_false, if_false]
  unfold funcCall
  have hlen' : ¬ ((om.obj.iface :: args).length ≠ (m.recvType :: m.inTypes).length) := by
    simp [hlen]
  rw [if_neg hlen']
  rw [if_neg (by rw [htypes]; simp)]

/-- C2, counterexample.  The claim states that a wrong argument count on a
resolved method is reported as an explicit returned error and never escapes
as an uncaught panic.  Calling the valid method `Add` on a valid `*Person`
wrapper with zero arguments makes the un-recovered
`om.method.Func.Call(in)` panic, which propagates out of `Call`. -/
theorem c2_wrong_arity_panics :
    ((NewObj (personPtrVal "" "" 0)).Method "Add").IsValid = true ∧
    (NewObj (personPtrVal "" "" 0)).IsValid = true ∧
    ((NewObj (personPtrVal "" "" 0)).Method "Add").Call []
      = .error { msg := "reflect: Call with wrong number of arguments" } := by
  refine ⟨by decide, by decide, by decide⟩

/-- C2, amended.  `Call`'s own returned error is non-null only for
resolution failures of the invalid-object / unknown-method kind (which
covers invoking a pointer-receiver method through a non-pointer object),
and those failures are explicit returned errors; a resolved, type-correct
call never yields a library error, even when the invoked method returns a
domain error.  (A wrong argument count or type on a resolved method is not
returned as an error — it panics uncaught; see the counterexample.) -/
theorem c2_call_error_only_resolution (om : ObjMethod) (args : List GoVal) :
    (∀ e, om.Call args = .ok (.error e) →
        om.obj.IsValid = false ∨ om.IsValid = false ∨ om.md.method = none) ∧
    (om.obj.IsValid = false ∨ om.IsValid = false →
        ∃ e, om.Call args = .ok (.error e)) ∧
    (∀ m, om.obj.IsValid = true → om.IsValid = true → om.md.method = some m →
        args.length = m.inTypes.length →
        ((om.obj.iface :: args).zip (m.recvType :: m.inTypes)).all
          (fun p => assignableTo p.1 p.2) = true →
        om.Call args = .ok (.ok (newCallResult (m.impl om.obj.iface args)))) := by
  refine ⟨?_, ?_, ?_⟩
  · intro e he
    cases hobj : om.obj.IsValid with
    | false => exact Or.inl rfl
    | true =>
      cases hval : om.IsValid with
      | false => exact Or.inr (Or.inl rfl)
      | true =>
        cases hm : om.md.method with
        | none => exact Or.inr (Or.inr rfl)
        | some m =>
          exfalso
          unfold ObjMethod.Call at he
          rw [hobj, hval, hm] at he
          simp only [not_true, ite_false, if_false] at he
          cases hf : funcCall m (om.obj.iface :: args) with
          | error f => rw [hf] at he; cases he
          | ok out => rw [hf] at he; simp at he
  · intro h
    rcases h with h | h
    · refine ⟨"invalid object type for method " ++ om.md.name, ?_⟩
      unfold ObjMethod.Call
      rw [h]
      simp
    · cases hobj : om.obj.IsValid with
      | false =>
        refine ⟨"invalid object type for method " ++ om.md.name, ?_⟩
        unfold ObjMethod.Call
        rw [hobj]
        simp
      | true =>
        refine ⟨"invalid method " ++ om.md.name, ?_⟩
        unfold ObjMethod.Call
        rw [hobj, h]
        simp
  · intro m hobj hval hm hlen htypes
    exact call_resolved_ok om args m hobj hval hm hlen htypes

/-- Witness for C2 (amended): a resolved call whose method returns a domain
error still yields no library error, and an unresolved method name yields
an explicit returned error. -/
theorem c2_call_error_only_resolution_witness :
    ((NewObj (personPtrVal "" "" 0)).Method "ReturnsError").Call [.vBool true]
      = .ok (.ok (newCallResult (personImplReturnsError (personPtrVal "" "" 0) [.vBool true]))) ∧
    (∃ e, ((NewObj (personPtrVal "" "" 0)).Method "Nope").Call [] = .ok (.error e)) :=
  ⟨(c2_call_error_only_resolution ((NewObj (personPtrVal "" "" 0)).Method "ReturnsError")
      [.vBool true]).2.2
      { name := "ReturnsError", ptrReceiver := false, recvType := .tPtr personTy,
        inTypes := [.tBool], outTypes := [.tString, .tPtr .tInt, .tError],
        impl := personImplReturnsError }
      (by decide) (by decide) rfl (by decide) (by decide),
   (c2_call_error_only_resolution ((NewObj (personPtrVal "" "" 0)).Method "Nope") []).2.1
      (Or.inr (by decide))⟩

/-- C7.  For a resolved, type-correct dynamic call: the full result
sequence is preserved unmodified; if the last returned value is a non-nil
error it becomes `CallResult.Error` and `IsError()` is true; if the last
returned value is nil `IsError()` is false; and in all cases `Call`'s own
returned error stays null. -/
theorem c7_trailing_error_detected (om : ObjMethod) (args : List GoVal) (m : GoMethod)
    (hobj : om.obj.IsValid = true) (hval : om.IsValid = true)
    (hm : om.md.method = some m)
    (hlen : args.length = m.inTypes.length)
    (htypes : ((om.obj.iface :: args).zip (m.recvType :: m.inTypes)).all
        (fun p => assignableTo p.1 p.2) = true) :
    om.Call args = .ok (.ok (newCallResult (m.impl om.obj.iface args))) ∧
    (newCallResult (m.impl om.obj.iface args)).Result = m.impl om.obj.iface args ∧
    (∀ msg, (m.impl om.obj.iface args).getLast? = some (.vError msg) →
        (newCallResult (m.impl om.obj.iface args)).Error = some msg ∧
        (newCallResult (m.impl om.obj.iface args)).IsError = true) ∧
    ((m.impl om.obj.iface args).getLast? = some .vNil →
        (newCallResult (m.impl om.obj.iface args)).Error = none ∧
        (newCallResult (m.impl om.obj.iface args)).IsError = false) := by
  refine ⟨call_resolved_ok om args m hobj hval hm hlen htypes, newCallResult_result _, ?_, ?_⟩
  · intro msg hlast
    have he := newCallResult_error_last _ msg hlast
    exact ⟨he, by simp [CallResult.IsError, he]⟩
  · intro hlast
    have he := newCallResult_nil_last _ hlast
    exact ⟨he, by simp [CallResult.IsError, he]⟩

/-- Witness for C7 at `Person.ReturnsError(true)` (the trailing error is
detected) and implicitly the preserved result sequence. -/
theorem c7_trailing_error_detected_witness :
    ((NewObj (personPtrVal "" "" 0)).Method "ReturnsError").Call [.vBool true]
      = .ok (.ok (newCallResult (personImplReturnsError (personPtrVal "" "" 0) [.vBool true]))) ∧
    (newCallResult (personImplReturnsError (personPtrVal "" "" 0) [.vBool true])).Error
      = some "error here" ∧
    (newCallResult (personImplReturnsError (personPtrVal "" "" 0) [.vBool true])).IsError
      = true := by
  have h := c7_trailing_error_detected
    ((NewObj (personPtrVal "" "" 0)).Method "ReturnsError") [.vBool true]
    { name := "ReturnsError", ptrReceiver := false, recvType := .tPtr personTy,
      inTypes := [.tBool], outTypes := [.tString, .tPtr .tInt, .tError],
      impl := personImplReturnsError }
    (by decide) (by decide) rfl (by decide) (by decide)
  exact ⟨h.1, (h.2.2.1 "error here" (by decide)).1, (h.2.2.1 "error here" (by decide)).2⟩

/-! ## Claim C3: indexed/keyed access and panic recovery -/

/-- C3, counterexample.  The claim states that a wrong value type in any of
the indexed/keyed accessors is caught at the wrapper boundary.  `SetByIndex`
has no `recover`: setting a string into an element of a wrapped `[]int`
(valid index, settable receiver) panics in the element `Set`, and the panic
propagates out of the library. -/
theorem c3_setbyindex_wrong_type_panics :
    (NewObj (GoVal.vSlice .tInt
        (.cons (.vInt 1) (.cons (.vInt 2) (.cons (.vInt 3) .nil))))).IsSettableByIndex
      = true ∧
    (NewObj (GoVal.vSlice .tInt
        (.cons (.vInt 1) (.cons (.vInt 2) (.cons (.vInt 3) .nil))))).SetByIndex 1 (.vString "x")
      = .error { msg := "reflect.Set: value not assignable to type" } := by
  refine ⟨by decide, by decide⟩

/-- C3, amended.  `GetByIndex`, `GetByKey` and `SetByKey` catch the
underlying runtime panics at the wrapper boundary: a wrong-typed key panics
inside the body and is converted to `(none, false)` (resp. an error result
for `SetByKey`); an out-of-range index on an indexable receiver yields
`(none, false)`; any body fault is converted, never propagated.
(`SetByIndex` checks range and kind explicitly but does not recover — a
wrong value type escapes as a panic; see the counterexample.) -/
theorem c3_access_panics_recovered (kt vt : GoType) (es : EntryList)
    (k x : GoVal) (o : Obj) (i : Int) :
    (k.typeOf ≠ some kt → (NewObj (.vMap kt vt es)).GetByKey k = (none, false)) ∧
    (k.typeOf ≠ some kt → ∃ f, (NewObj (.vMap kt vt es)).GetByKeyBody k = .error f) ∧
    (k.typeOf ≠ some kt → ∃ e, (NewObj (.vMap kt vt es)).SetByKey k x = .error e) ∧
    (o.IsGettableByIndex = true → (i < 0 ∨ o.Len ≤ i) → o.GetByIndex i = (none, false)) ∧
    (∀ f, o.GetByKeyBody k = .error f → o.GetByKey k = (none, false)) ∧
    (∀ f, o.GetByIndexBody i = .error f → o.GetByIndex i = (none, false)) ∧
    (∀ f, o.SetByKeyBody k x = .error f → ∃ e, o.SetByKey k x = .error e) := by
  have hbody : k.typeOf ≠ some kt →
      ∃ f, (NewObj (GoVal.vMap kt vt es)).GetByKeyBody k = .error f := by
    intro hk
    have hred : (NewObj (GoVal.vMap kt vt es)).GetByKeyBody k =
        (match reflectMapIndex (GoVal.vMap kt vt es) k with
         | .ok (some v) => .ok (some v, true)
         | .ok none => .ok (none, false)
         | .error f => .error f) := rfl
    rw [hred]
    unfold reflectMapIndex
    cases hkt : k.typeOf with
    | none => exact ⟨_, rfl⟩
    | some t =>
      have hne : ¬ t = kt := fun h => hk (by rw [hkt, h])
      exact ⟨{ msg := "reflect: Value.MapIndex using key of wrong type" }, by simp [hne]⟩
  have hsbody : k.typeOf ≠ some kt →
      ∃ f, (NewObj (GoVal.vMap kt vt es)).SetByKeyBody k x = .error f := by
    intro hk
    have hred : (NewObj (GoVal.vMap kt vt es)).SetByKeyBody k x =
        (match reflectSetMapIndex (GoVal.vMap kt vt es) k x with
         | .ok fv' => .ok (.ok fv')
         | .error f => .error f) := rfl
    rw [hred]
    unfold reflectSetMapIndex
    cases hkt : k.typeOf with
    | none => exact ⟨_, rfl⟩
    | some t =>
      have hne : ¬ t = kt := fun h => hk (by rw [hkt, h])
      exact ⟨{ msg := "reflect: Value.SetMapIndex using key of wrong type" }, by simp [hne]⟩
  refine ⟨?_, hbody, ?_, ?_, ?_, ?_, ?_⟩
  · intro hk
    obtain ⟨f, hf⟩ := hbody hk
    unfold Obj.GetByKey
    rw [hf]
  · intro hk
    obtain ⟨f, hf⟩ := hsbody hk
    refine ⟨"cannot set key: " ++ f.msg, ?_⟩
    unfold Obj.SetByKey
    rw [hf]
  · intro hg hrange
    unfold Obj.GetByIndex Obj.GetByIndexBody
    rw [hg]
    rw [if_pos rfl]
    rw [if_neg (by omega)]
  · intro f hf
    unfold Obj.GetByKey
    rw [hf]
  · intro f hf
    unfold Obj.GetByIndex
    rw [hf]
  · intro f hf
    refine ⟨"cannot set key: " ++ f.msg, ?_⟩
    unfold Obj.SetByKey
    rw [hf]

/-- Witness for C3 (amended) at a `map[string]int` with an `int` key and a
`[]int` with an out-of-range index. -/
theorem c3_access_panics_recovered_witness :
    (NewObj (GoVal.vMap .tString .tInt
        (.cons (.vString "a") (.vInt 1) .nil))).GetByKey (.vInt 17) = (none, false) ∧
    (∃ e, (NewObj (GoVal.vMap .tString .tInt
        (.cons (.vString "a") (.vInt 1) .nil))).SetByKey (.vInt 17) (.vInt 5) = .error e) ∧
    (NewObj (GoVal.vSlice .tInt
        (.cons (.vInt 1) (.cons (.vInt 2) .nil)))).GetByIndex 20 = (none, false) := by
  have h1 := c3_access_panics_recovered .tString .tInt
    (.cons (.vString "a") (.vInt 1) .nil) (.vInt 17) (.vInt 5)
    (NewObj (GoVal.vSlice .tInt (.cons (.vInt 1) (.cons (.vInt 2) .nil)))) 20
  exact ⟨h1.1 (by decide), h1.2.2.1 (by decide), h1.2.2.2.1 (by decide) (by decide)⟩

/-! ## Claim C6: settability -/

theorem bindLookup_bindUpdate (bs : BindList) (x : String) (v cur : GoVal)
    (h : bindLookup bs x = some cur) :
    bindLookup (bindUpdate bs x v) x = some v := by
  match bs with
  | .nil => simp [bindLookup] at h
  | .cons nm w rest =>
    by_cases hnm : nm = x
    · simp [bindUpdate, bindLookup, hnm]
    · simp only [bindUpdate, bindLookup, if_neg hnm] at h ⊢
      exact bindLookup_bindUpdate rest x v cur h

/-- Read-after-write along a promotion path: if a path resolves in `v`,
writing `x` at its end succeeds and a subsequent walk reads `x` back. -/
theorem writePath_walkPath (p : List String) :
    ∀ (v cur x : GoVal), walkPath v p = some cur →
      ∃ v', writePath v p x = some v' ∧ walkPath v' p = some x := by
  induction p with
  | nil =>
    intro v cur x _
    exact ⟨x, by simp [writePath], by simp [walkPath]⟩
  | cons nm rest ih =>
    intro v cur x h
    match v with
    | .vNil => simp [walkPath] at h
    | .vBool b => simp [walkPath] at h
    | .vInt n => simp [walkPath] at h
    | .vString s => simp [walkPath] at h
    | .vError m => simp [walkPath] at h
    | .vPtrNil t => simp [walkPath] at h
    | .vPtr t p' => simp [walkPath] at h
    | .vSlice t l => simp [walkPath] at h
    | .vArray t n l => simp [walkPath] at h
    | .vMap kt vt es => simp [walkPath] at h
    | .vStruct sn fs bs =>
      simp only [walkPath] at h
      cases hb : bindLookup bs nm with
      | none => rw [hb] at h; cases h
      | some v0 =>
        rw [hb] at h
        obtain ⟨v0', hw, hwalk⟩ := ih v0 cur x h
        refine ⟨.vStruct sn fs (bindUpdate bs nm v0'), ?_, ?_⟩
        · simp only [writePath, hb, hw]
        · simp only [walkPath, bindLookup_bindUpdate bs nm v0' v0 hb]
          exact hwalk

/-- `Set` through a non-addressable field view always returns an explicit
error (never a fault). -/
theorem set_nonaddressable_fails (f : ObjField) (val : GoVal)
    (h : f.addressable = false) :
    ∃ e, f.Set val = .ok (.error e) := by
  cases hval : f.IsValid with
  | false =>
    refine ⟨"invalid field " ++ f.md.name, ?_⟩
    unfold ObjField.Set
    rw [hval]
    simp
  | true =>
    refine ⟨"field " ++ f.md.name ++ " not settable", ?_⟩
    have hs : f.IsSettable = false := by
      unfold ObjField.IsSettable
      rw [h]
      simp
    unfold ObjField.Set
    rw [hval, hs]
    simp

/-- The addressability recorded in a constructed field view comes from the
wrapper (or is false). -/
theorem newObjField_addressable (o : Obj) (md : ObjFieldMetadata) :
    (newObjField o md).addressable = o.valueAddressable ∨
      (newObjField o md).addressable = false := by
  unfold newObjField
  by_cases hc : (md.valid && o.IsStructOrPtrToStruct) = true
  · rw [if_pos hc]
    cases hfv : o.fieldsValue with
    | some fv => exact Or.inl rfl
    | none => exact Or.inr rfl
  · rw [if_neg hc]
    exact Or.inr rfl

/-- A field view handed out by `Obj.Field` is addressable only when the
wrapper's fields value is. -/
theorem field_addressable_cases (o : Obj) (name : String) :
    (o.Field name).addressable = o.valueAddressable ∨
      (o.Field name).addressable = false := by
  unfold Obj.Field
  cases hfv : o.fieldsValue with
  | none => exact newObjField_addressable o _
  | some fv =>
    cases hl : o.objMeta.fields.lookup name with
    | none => exact newObjField_addressable o _
    | some md => exact newObjField_addressable o _

/-- C6.  Wrapping a non-pointer struct value, `Set` on any field always
fails with an explicit error.  Wrapping a pointer to the struct, `Set` on a
valid exported field (with a value of the field's declared type) succeeds,
and the written value is visible through `Get` on a new wrapper constructed
around the same pointer (modelled by wrapping the updated pointee that the
in-place write produced). -/
theorem c6_set_requires_pointer (sn : String) (fs : FieldList) (bs : BindList)
    (name : String) (md : ObjFieldMetadata) (ft : GoType) (sf : StructField)
    (path : List String) (cur val : GoVal)
    (hmd : (NewObj (GoVal.vPtr (.tStruct sn fs)
        (.vStruct sn fs bs))).objMeta.fields.lookup name = some md)
    (hname : md.name = name)
    (hvalid : md.valid = true)
    (hft : md.fieldType = some ft)
    (hsf : md.structField = some sf)
    (hexp : sf.pkgPath = "")
    (hpath : valuePathByName (GoVal.vStruct sn fs bs) name = some path)
    (hpne : path ≠ [])
    (hwalk : walkPath (GoVal.vStruct sn fs bs) path = some cur)
    (hassign : assignableTo val ft = true) :
    (∀ (v : GoVal) (nm2 : String) (x : GoVal), v.typeOf = some (.tStruct sn fs) →
        ∃ e, ((NewObj v).Field nm2).Set x = .ok (.error e)) ∧
    (∃ sv', ((NewObj (GoVal.vPtr (.tStruct sn fs) (.vStruct sn fs bs))).Field name).Set val
        = .ok (.ok sv') ∧
      ((NewObj (GoVal.vPtr (.tStruct sn fs) sv')).Field name).Get = .ok val) := by
  constructor
  · intro v nm2 x hty
    have haddr : (NewObj v).valueAddressable = false := by
      match v with
      | .vPtr e p => simp [GoVal.typeOf] at hty
      | .vPtrNil e => rfl
      | .vNil => rfl
      | .vBool b => rfl
      | .vInt n => rfl
      | .vString s => rfl
      | .vError m => rfl
      | .vSlice t l => rfl
      | .vArray t n l => rfl
      | .vMap kt vt es => rfl
      | .vStruct a b c => rfl
    rcases field_addressable_cases (NewObj v) nm2 with h | h
    · exact set_nonaddressable_fails _ x (by rw [h, haddr])
    · exact set_nonaddressable_fails _ x h
  · have hfv : (NewObj (GoVal.vPtr (.tStruct sn fs) (.vStruct sn fs bs))).fieldsValue
        = some (GoVal.vStruct sn fs bs) := rfl
    have hsp : (NewObj (GoVal.vPtr (.tStruct sn fs)
        (.vStruct sn fs bs))).IsStructOrPtrToStruct = true := rfl
    have hva : (NewObj (GoVal.vPtr (.tStruct sn fs)
        (.vStruct sn fs bs))).valueAddressable = true := rfl
    have hfield : (NewObj (GoVal.vPtr (.tStruct sn fs) (.vStruct sn fs bs))).Field name
        = { value := some cur, addressable := true,
            parent := some (GoVal.vStruct sn fs bs), path := path, md := md } := by
      simp [Obj.Field, hfv, hmd, newObjField, hname, hvalid, hsp, hva,
        valueFieldByName, hpath, hwalk]
    obtain ⟨sv', hw, hwalkAfter⟩ := writePath_walkPath path (GoVal.vStruct sn fs bs) cur val hwalk
    have hset : ((NewObj (GoVal.vPtr (.tStruct sn fs) (.vStruct sn fs bs))).Field name).Set val
        = .ok (.ok sv') := by
      rw [hfield]
      unfold ObjField.Set
      simp only [ObjField.IsValid, ObjField.IsSettable, ObjField.IsExported, hvalid, hsf]
      rw [hft]
      simp [hexp, hassign, hw]
    refine ⟨sv', hset, ?_⟩
    obtain ⟨nm, rest, hps⟩ : ∃ nm rest, path = nm :: rest := by
      cases path with
      | nil => exact absurd rfl hpne
      | cons a b => exact ⟨a, b, rfl⟩
    subst hps
    have hshape : ∃ bs', sv' = GoVal.vStruct sn fs bs' := by
      simp only [writePath] at hw
      cases hb : bindLookup bs nm with
      | none =>
        rw [hb] at hw
        exact Option.noConfusion hw
      | some cur0 =>
        rw [hb] at hw
        have hw2 : (match writePath cur0 rest val with
            | some cur' => some (GoVal.vStruct sn fs (bindUpdate bs nm cur'))
            | none => none) = some sv' := hw
        cases hwp : writePath cur0 rest val with
        | none =>
          rw [hwp] at hw2
          exact Option.noConfusion hw2
        | some cur' =>
          rw [hwp] at hw2
          exact ⟨bindUpdate bs nm cur', (Option.some.inj hw2).symm⟩
    obtain ⟨bs', hsv⟩ := hshape
    subst hsv
    have hmd' : (NewObj (GoVal.vPtr (.tStruct sn fs)
        (.vStruct sn fs bs'))).objMeta.fields.lookup name = some md := hmd
    have hpath' : valuePathByName (GoVal.vStruct sn fs bs') name = some (nm :: rest) := hpath
    have hfv' : (NewObj (GoVal.vPtr (.tStruct sn fs) (.vStruct sn fs bs'))).fieldsValue
        = some (GoVal.vStruct sn fs bs') := rfl
    have hsp' : (NewObj (GoVal.vPtr (.tStruct sn fs)
        (.vStruct sn fs bs'))).IsStructOrPtrToStruct = true := rfl
    have hva' : (NewObj (GoVal.vPtr (.tStruct sn fs)
        (.vStruct sn fs bs'))).valueAddressable = true := rfl
    have hfield' : (NewObj (GoVal.vPtr (.tStruct sn fs) (.vStruct sn fs bs'))).Field name
        = { value := some val, addressable := true,
            parent := some (GoVal.vStruct sn fs bs'), path := nm :: rest, md := md } := by
      simp [Obj.Field, hfv', hmd', newObjField, hname, hvalid, hsp', hva',
        valueFieldByName, hpath', hwalkAfter]
    rw [hfield']
    unfold ObjField.Get
    simp only [ObjField.IsValid, ObjField.IsExported, hvalid, hsf]
    simp [hexp]

/-- Witness for C6 at `Person`/`Street`: setting through `&Person{}`
succeeds and the value is visible through a fresh wrapper; setting through
a plain `Person{}` fails. -/
theorem c6_set_requires_pointer_witness :
    (∃ e, ((NewObj (personVal "" "" 0)).Field "Street").Set (.vString "ulica")
        = .ok (.error e)) ∧
    (∃ sv', ((NewObj (GoVal.vPtr personTy (personVal "" "" 0))).Field "Street").Set
        (.vString "ulica") = .ok (.ok sv') ∧
      ((NewObj (GoVal.vPtr personTy sv')).Field "Street").Get = .ok (.vString "ulica")) := by
  have h := c6_set_requires_pointer "Person" personFieldsL
    (.cons "Name" (.vString "") (.cons "Address" (addressVal "" 0) .nil))
    "Street"
    { name := "Street", structField := some (.mk "Street" "" "tag:\"be\" tag2:\"1,2,3\"" false .tString),
      valid := true, fieldKind := .kString, fieldType := some .tString }
    .tString
    (.mk "Street" "" "tag:\"be\" tag2:\"1,2,3\"" false .tString)
    ["Address", "Street"] (.vString "") (.vString "ulica")
    (by decide) (by decide) (by decide) (by decide) (by decide)
    (by decide) (by decide) (by decide) (by decide) (by decide)
  exact ⟨h.1 (personVal "" "" 0) "Street" (.vString "ulica") (by decide), h.2⟩

/-! ## Claim C5 -/

theorem countsLookup_countsStore (counts : List (String × Nat)) (f x : String) (c : Nat) :
    countsLookup (countsStore counts f c) x = if f = x then c else countsLookup counts x := by
  induction counts with
  | nil =>
    by_cases h : f = x <;> simp [countsStore, countsLookup, h]
  | cons hd tl ih =>
    obtain ⟨k, c0⟩ := hd
    by_cases hk : k = f
    · subst hk
      by_cases hx : k = x <;> simp [countsStore, countsLookup, hx]
    · by_cases hx : k = x
      · subst hx
        have hfx : ¬ f = k := fun h => hk h.symm
        simp [countsStore, countsLookup, hk, hfx]
      · simp [countsStore, countsLookup, hk, hx, ih]

/-- Characterisation of the `FindDoubleFields` loop: starting from counts
`counts` and accumulator `res`, a name ends up in the result iff it was
already there, or its stored count is 1 and it occurs again, or its stored
count is 0 and it occurs at least twice. -/
theorem findDoubleLoop_mem (l : List String) :
    ∀ (counts : List (String × Nat)) (res : List String) (x : String),
      x ∈ findDoubleLoop l counts res ↔
        x ∈ res ∨ (countsLookup counts x = 1 ∧ x ∈ l) ∨
          (countsLookup counts x = 0 ∧ 2 ≤ l.count x) := by
  induction l with
  | nil =>
    intro counts res x
    simp [findDoubleLoop]
  | cons f rest ih =>
    intro counts res x
    simp only [findDoubleLoop]
    rw [ih, countsLookup_countsStore]
    by_cases hx : f = x
    · subst hx
      rw [if_pos rfl]
      have hcount : (f :: rest).count f = rest.count f + 1 := List.count_cons_self f rest
      by_cases h1 : countsLookup counts f = 1
      · rw [if_pos h1]
        constructor
        · intro _
          exact Or.inr (Or.inl ⟨h1, List.mem_cons_self f rest⟩)
        · intro _
          exact Or.inl (List.mem_append.mpr (Or.inr (List.mem_singleton.mpr rfl)))
      · rw [if_neg h1]
        constructor
        · rintro (hres | ⟨hc, hmem⟩ | ⟨hc, _⟩)
          · exact Or.inl hres
          · have h0 : countsLookup counts f = 0 := by omega
            have hpos : 0 < rest.count f := List.count_pos_iff.mpr hmem
            exact Or.inr (Or.inr ⟨h0, by rw [hcount]; omega⟩)
          · exact absurd hc (by omega)
        · rintro (hres | ⟨hc, _⟩ | ⟨hc, hcnt⟩)
          · exact Or.inl hres
          · exact absurd hc h1
          · have hpos : 0 < rest.count f := by
              rw [hcount] at hcnt; omega
            exact Or.inr (Or.inl ⟨by omega, List.count_pos_iff.mp hpos⟩)
    · have hxne : ¬ x = f := fun h => hx h.symm
      rw [if_neg hx]
      have hcount : (f :: rest).count x = rest.count x := by
        simp [List.count_cons, hx]
      have hmem : x ∈ f :: rest ↔ x ∈ rest := by
        simp [List.mem_cons, hxne]
      rw [hcount, hmem]
      by_cases h1 : countsLookup counts f = 1
      · rw [if_pos h1]
        have hres : x ∈ res ++ [f] ↔ x ∈ res := by
          simp [List.mem_append, hxne]
        rw [hres]
      · rw [if_neg h1]

/-- C5.  `FieldsAll` on `Company` preserves both occurrences of the
duplicated name `Number` positionally, and `FindDoubleFields` returns
exactly the names occurring more than once in the all-fields listing —
`["Number"]` for `Company`. -/
theorem c5_duplicate_fields :
    ((NewObj (companyVal "" 0 0)).FieldsAll.map ObjField.Name)
      = ["Address", "Street", "Number", "Number"] ∧
    (NewObj (companyVal "" 0 0)).FindDoubleFields = ["Number"] ∧
    (∀ (o : Obj) (x : String),
      x ∈ o.FindDoubleFields ↔ 2 ≤ (o.FieldsAll.map ObjField.Name).count x) := by
  refine ⟨by decide, by decide, ?_⟩
  intro o x
  unfold Obj.FindDoubleFields
  rw [findDoubleLoop_mem]
  simp [countsLookup]

end GoReflector
